import Mathlib

/-
Verification of the StockenBoard polling/streaming core against its
specification.  The Rust source (src-tauri/src) is shallowly embedded:
pure helpers become Lean functions, the SQLite-backed history writer
becomes a fold over an explicit list of rows, HashMaps become
association lists, and the scheduling/worker loops become step
functions whose "sleep on signal" points are explicit constructors.
f64 payload values are carried as Rat (no float arithmetic is ever
performed on them by the code fragments modelled here, they are only
copied).  Rust strings are modelled as Lean String, except in the
symbol normalizer where character-level reasoning is needed and
List Char is used (the symbols involved are ASCII, where Rust
to_uppercase and Char.toUpper agree byte-for-byte).
-/

namespace StockenBoard

/- ===== String constants appearing in the source ===== -/

def colonStr : String := ":"

def dexType : String := "dex"

def preMarketKey : String := "pre_market_price"

def postMarketKey : String := "post_market_price"

def productUA : String := "StockenBoard/1.0"

def yahooUA : String := "Mozilla/5.0 (Windows NT 10.0; Win64; x64) AppleWebKit/537.36 (KHTML, like Gecko) Chrome/120.0.0.0 Safari/537.36"

/- ===== Symbol normalizer (providers/traits.rs, parse_crypto_symbol) ===== -/

/-- Rust str::split_once(c): split at the first occurrence of c. -/
def splitOnce : List Char → Char → Option (List Char × List Char)
  | [], _ => none
  | x :: xs, c =>
    if x = c then some ([], xs)
    else (splitOnce xs c).map (fun p => (x :: p.1, p.2))

def sUSDT : List Char := "USDT".toList

def sUSDC : List Char := "USDC".toList

def sBUSD : List Char := "BUSD".toList

def sUSD : List Char := "USD".toList

def sEUR : List Char := "EUR".toList

def sGBP : List Char := "GBP".toList

def sBTC : List Char := "BTC".toList

def sETH : List Char := "ETH".toList

def sBNB : List Char := "BNB".toList

/-- The ordered quote-suffix list of parse_crypto_symbol. -/
def quoteSuffixes : List (List Char) := [sUSDT, sUSDC, sBUSD, sUSD, sEUR, sGBP, sBTC, sETH, sBNB]

/-- Body of parse_crypto_symbol after `let s = symbol.to_uppercase()`:
split on '-', split on '/', ordered suffix match (with strict length,
i.e. nonempty base), fallback (s, USD). -/
def parseUpper (s : List Char) : List Char × List Char :=
  match splitOnce s '-' with
  | some p => p
  | none =>
    match splitOnce s '/' with
    | some p => p
    | none =>
      match quoteSuffixes.find? (fun suf => decide (suf.length < s.length) && suf.isSuffixOf s) with
      | some suf => (s.take (s.length - suf.length), suf)
      | none => (s, sUSD)

/-- providers/traits.rs parse_crypto_symbol: uppercase the input, then
apply the split/suffix precedence of parseUpper. -/
def parse_crypto_symbol (symbol : List Char) : List Char × List Char :=
  parseUpper (symbol.map Char.toUpper)

/- ===== Provider data model (providers/traits.rs) ===== -/

structure AssetData where
  symbol : String
  price : Rat
  currency : String
  change_24h : Option Rat
  change_percent_24h : Option Rat
  high_24h : Option Rat
  low_24h : Option Rat
  volume : Option Rat
  market_cap : Option Rat
  last_updated : Int
  provider_id : String
  extra : Option (List (String × Option Rat))
deriving DecidableEq

/-- Default DataProvider::fetch_prices: sequential fetch_price per symbol;
an Err result is logged (eprintln) and the symbol skipped; the loop then
continues and the whole call returns Ok(results). -/
def fetch_prices_default (fetch : String → Except String AssetData) (symbols : List String) : Except String (List AssetData) :=
  Except.ok (symbols.foldl
    (fun results s =>
      match fetch s with
      | Except.ok d => results ++ [d]
      | Except.error _ => results)
    [])

/- ===== WebSocket reconnect policy (providers/ws_binance.rs) ===== -/

def MAX_RECONNECT_ATTEMPTS : Nat := 10

def INITIAL_RECONNECT_DELAY_MS : Nat := 1000

/-- One reconnect block of connect_with_reconnect / run_ws_loop.  The Rust
loop keeps a counter `attempt` and breaks when `attempt >= MAX`; it is
translated with `fuel = MAX - attempt`, which decreases exactly when
`attempt` increases.  `connect n` is the outcome of the n-th
connect_async call.  Returns the list of backoff delays slept (one
before every connect attempt) and whether a reconnect succeeded. -/
def reconnectAux (connect : Nat → Bool) : Nat → Nat → List Nat × Bool
  | 0, _ => ([], false)
  | fuel + 1, attempt =>
    let delay := INITIAL_RECONNECT_DELAY_MS * 2 ^ (min attempt 6)
    if connect attempt then ([delay], true)
    else
      let rest := reconnectAux connect fuel (attempt + 1)
      (delay :: rest.1, rest.2)

def reconnectLoop (connect : Nat → Bool) : List Nat × Bool :=
  reconnectAux connect MAX_RECONNECT_ATTEMPTS 0

/- ===== Shared HTTP client configuration (providers/traits.rs shared_client,
providers/yahoo.rs YahooProvider::new) ===== -/

structure ClientConfig where
  timeout_secs : Option Nat
  user_agent : Option String
  cookie_store : Bool
  pool_max_idle_per_host : Option Nat
deriving DecidableEq

/-- reqwest::Client::builder() defaults: no total timeout, no user agent,
cookie store disabled, unbounded idle pool. -/
def clientBuilderDefault : ClientConfig :=
  { timeout_secs := none
    user_agent := none
    cookie_store := false
    pool_max_idle_per_host := none }

/-- traits.rs shared_client(): the OnceLock-initialized process-wide client.
Builder calls: timeout(15s), user_agent("StockenBoard/1.0"),
pool_max_idle_per_host(10).  No cookie_store call. -/
def shared_client : ClientConfig :=
  { clientBuilderDefault with
    timeout_secs := some 15
    user_agent := some productUA
    pool_max_idle_per_host := some 10 }

/-- yahoo.rs YahooProvider::new(): the Yahoo adapter's own client.
Builder calls: timeout(15s), user_agent(browser UA), cookie_store(true). -/
def yahoo_client : ClientConfig :=
  { clientBuilderDefault with
    timeout_secs := some 15
    user_agent := some yahooUA
    cookie_store := true }

/- ===== Polling manager data model (polling.rs) ===== -/

structure PollTick where
  provider_id : String
  fetched_at : Int
  interval_ms : Nat
deriving DecidableEq

/-- One row of the subscriptions table (the columns polling.rs reads). -/
structure SubRow where
  id : Int
  sub_type : String
  symbol : String
  selected_provider_id : String
  pool_address : Option String
  token_from_address : Option String
  token_to_address : Option String
  record_enabled : Bool
  record_from_hour : Option Int
  record_to_hour : Option Int
deriving DecidableEq

/-- DEX composite symbol pool:token_from:token_to
(read_subscriptions, sub_type = "dex" branch). -/
def compositeSymbol (r : SubRow) : String :=
  r.pool_address.getD "" ++ colonStr ++ r.token_from_address.getD "" ++ colonStr ++ r.token_to_address.getD ""

/-- The effective symbol a subscription is polled and reported under. -/
def effectiveSymbol (r : SubRow) : String :=
  if r.sub_type == dexType then compositeSymbol r else r.symbol

structure SubRecord where
  id : Int
  symbol : String
  provider_id : String
  record_enabled : Bool
deriving DecidableEq

def subRecordOf (r : SubRow) : SubRecord :=
  { id := r.id
    symbol := effectiveSymbol r
    provider_id := r.selected_provider_id
    record_enabled := r.record_enabled }

/-- polling.rs read_subscriptions: map every row to a SubRecord with the
effective symbol, then filter by the visible-id set when one is given. -/
def read_subscriptions (subs : List SubRow) (visible : Option (List Int)) : List SubRecord :=
  let all := subs.map subRecordOf
  match visible with
  | some ids => all.filter (fun s => ids.contains s.id)
  | none => all

/-- One row of the provider_settings table (the window columns the
history recorder reads). -/
structure ProvRow where
  provider_id : String
  record_from_hour : Option Int
  record_to_hour : Option Int
deriving DecidableEq

/-- One row of the price_history table. -/
structure HistRow where
  subscription_id : Int
  provider_id : String
  price : Rat
  change_pct : Option Rat
  volume : Option Rat
  pre_price : Option Rat
  post_price : Option Rat
  recorded_at : Int
deriving DecidableEq

structure PollingGroup where
  symbols : List String
  record_symbols : List String
  interval_ms : Nat
deriving DecidableEq

/-- Cache key format!("{}:{}", provider_id, symbol). -/
def cacheKey (pid s : String) : String := pid ++ colonStr ++ s

/- ===== History recorder (polling.rs write_price_history) ===== -/

/-- Rust `as u32` on an i64: two's-complement wrap into [0, 2^32). -/
def u32cast (i : Int) : Nat := (i % (2 ^ 32 : Int)).toNat

/-- SELECT id, record_from_hour, record_to_hour FROM subscriptions WHERE
symbol = ?1 AND selected_provider_id = ?2 (query_row: first match). -/
def lookupSubWindow (subs : List SubRow) (sym pid : String) : Option (Int × Option Int × Option Int) :=
  (subs.find? (fun r => r.symbol == sym && r.selected_provider_id == pid)).map
    (fun r => (r.id, r.record_from_hour, r.record_to_hour))

/-- SELECT record_from_hour, record_to_hour FROM provider_settings WHERE
provider_id = ?1 (query_row: first match). -/
def lookupProvWindow (provs : List ProvRow) (pid : String) : Option (Option Int × Option Int) :=
  (provs.find? (fun r => r.provider_id == pid)).map
    (fun r => (r.record_from_hour, r.record_to_hour))

/-- Effective recording window: subscription window when both bounds are
set, else provider window when both bounds are set, else (0, 24). -/
def effectiveHours (subFrom subTo : Option Int) (provs : List ProvRow) (pid : String) : Nat × Nat :=
  match subFrom, subTo with
  | some f, some t => (u32cast f, u32cast t)
  | _, _ =>
    match lookupProvWindow provs pid with
    | some (some pf, some pt) => (u32cast pf, u32cast pt)
    | _ => (0, 24)

/-- The in-window test of write_price_history: the check is skipped
entirely for the full-day window (0, 24); otherwise from <= to means
hour in [from, to) and from > to means hour >= from or hour < to. -/
def windowPass (fromH toH hour : Nat) : Bool :=
  if fromH == 0 && toH == 24 then true
  else if fromH ≤ toH then decide (fromH ≤ hour) && decide (hour < toH)
  else decide (hour ≥ fromH) || decide (hour < toH)

/-- extra.get(key).and_then(|v| v.as_f64()) on the AssetData extra bag. -/
def extraLookup (extra : Option (List (String × Option Rat))) (key : String) : Option Rat :=
  extra.bind (fun m => (m.find? (fun p => p.1 == key)).bind (fun p => p.2))

/-- The body of the per-AssetData loop of write_price_history: the row to
insert for d, or none when any gate (record_symbols membership,
subscription lookup, recording window, 5-second dedup) skips the point.
`hist` is the current content of price_history. -/
def writeOne (subs : List SubRow) (provs : List ProvRow) (hist : List HistRow)
    (pid : String) (d : AssetData) (recordSymbols : List String)
    (now : Int) (localHour : Nat) : Option HistRow :=
  if !(recordSymbols.contains d.symbol) then none
  else
    match lookupSubWindow subs d.symbol pid with
    | none => none
    | some (subId, subFrom, subTo) =>
      if !(windowPass (effectiveHours subFrom subTo provs pid).1
            (effectiveHours subFrom subTo provs pid).2 localHour) then none
      else if hist.any (fun r => r.subscription_id == subId && decide (r.recorded_at > now - 5)) then none
      else some
        { subscription_id := subId
          provider_id := pid
          price := d.price
          change_pct := d.change_percent_24h
          volume := d.volume
          pre_price := extraLookup d.extra preMarketKey
          post_price := extraLookup d.extra postMarketKey
          recorded_at := now }

/-- polling.rs write_price_history: fold writeOne over the batch, each
INSERT appending to price_history (so later points of the same batch see
the rows inserted by earlier ones, as they do through the connection). -/
def write_price_history (subs : List SubRow) (provs : List ProvRow) (hist : List HistRow)
    (pid : String) (data : List AssetData) (recordSymbols : List String)
    (now : Int) (localHour : Nat) : List HistRow :=
  data.foldl
    (fun h d =>
      match writeOne subs provs h pid d recordSymbols now localHour with
      | some row => h ++ [row]
      | none => h)
    hist

/-- The price_history rows belonging to one subscription id. -/
def rowsFor (sid : Int) (hist : List HistRow) : List HistRow :=
  hist.filter (fun r => r.subscription_id == sid)

/- ===== Scheduling-loop generation start (polling.rs PollingManager::start) ===== -/

/-- The valid cache keys of a generation: provider_id:symbol over all
groups (PollingManager::start, the `valid` HashSet). -/
def groupCacheKeys (groups : List (String × PollingGroup)) : List String :=
  groups.foldr (fun pg acc => pg.2.symbols.map (fun s => cacheKey pg.1 s) ++ acc) []

/-- cache.retain(|k, _| valid.contains(k)). -/
def pruneCache (cache : List (String × AssetData)) (groups : List (String × PollingGroup)) : List (String × AssetData) :=
  cache.filter (fun kv => (groupCacheKeys groups).contains kv.1)

/-- ticks.retain(|k, _| active_pids.contains(k)). -/
def pruneTicks (ticks : List (String × PollTick)) (groups : List (String × PollingGroup)) : List (String × PollTick) :=
  ticks.filter (fun kv => (groups.map (fun g => g.1)).contains kv.1)

/- ===== Loop head: visibility snapshot (polling.rs PollingManager::start) ===== -/

structure ManagerState where
  cache : List (String × AssetData)
  ticks : List (String × PollTick)
  visible_ids : List (String × List Int)
  unattended : Bool
deriving DecidableEq

/-- Union of all registered window scopes. -/
def unionIds (m : List (String × List Int)) : List Int :=
  m.foldr (fun p acc => p.2 ++ acc) []

/-- The (vis_snapshot, has_windows) pair computed at the top of each loop
iteration: unattended ignores the filter, an empty registry means no
filter, otherwise the union of all scopes with has_windows = true. -/
def visSnapshot (st : ManagerState) : List Int × Bool :=
  if st.unattended then ([], false)
  else if st.visible_ids.isEmpty then ([], false)
  else (unionIds st.visible_ids, true)

/-- What an iteration does before spawning anything.  sleepCleared models
the branch that clears cache and ticks and then blocks on
`select! { reload, stop }` without spawning any worker; loadWith f models
proceeding to load_config with visibility filter f. -/
inductive IterStep where
  | sleepCleared : IterStep
  | loadWith : Option (List Int) → IterStep
deriving DecidableEq

/-- The head of one scheduling-loop iteration: the visibility gate of
PollingManager::start, returning the updated state and the action taken. -/
def iterationHead (st : ManagerState) : ManagerState × IterStep :=
  let snap := visSnapshot st
  if !st.unattended && snap.2 && snap.1.isEmpty then
    ({ st with cache := [], ticks := [] }, IterStep.sleepCleared)
  else
    (st, IterStep.loadWith (if snap.2 then some snap.1 else none))

/- ===== Worker iteration (polling.rs, the spawned per-group loop body) ===== -/

inductive WorkerEvent where
  | priceUpdate : List AssetData → WorkerEvent
  | priceError : List (String × String) → WorkerEvent
  | pollTick : PollTick → WorkerEvent
deriving DecidableEq

/-- HashMap::insert on the association-list model. -/
def upsert {β : Type} (m : List (String × β)) (k : String) (v : β) : List (String × β) :=
  m.filter (fun p => !(p.1 == k)) ++ [(k, v)]

structure WorkerStepResult where
  cache : List (String × AssetData)
  ticks : List (String × PollTick)
  hist : List HistRow
  events : List WorkerEvent
  continues : Bool
deriving DecidableEq

/-- One pass of the worker loop body.  On Ok: write every result into the
cache under provider:symbol, emit price-update, and run
write_price_history when the group has record-enabled symbols.  On Err:
emit price-error mapping provider:symbol to the error text for every
requested symbol.  In both cases insert and emit a poll-tick, then sleep;
`genStopped` tells whether the generation-stop signal fired during the
sleep, which is the only way the loop breaks. -/
def workerIteration (pid : String) (symbols : List String) (intervalMs : Nat)
    (recordSymbols : List String) (subs : List SubRow) (provs : List ProvRow)
    (fetchResult : Except String (List AssetData))
    (cache : List (String × AssetData)) (ticks : List (String × PollTick))
    (hist : List HistRow) (nowMs nowSec : Int) (localHour : Nat)
    (genStopped : Bool) : WorkerStepResult :=
  let tick : PollTick := { provider_id := pid, fetched_at := nowMs, interval_ms := intervalMs }
  match fetchResult with
  | Except.ok results =>
    { cache := results.foldl (fun c d => upsert c (cacheKey pid d.symbol) d) cache
      ticks := upsert ticks pid tick
      hist :=
        if !recordSymbols.isEmpty then
          write_price_history subs provs hist pid results recordSymbols nowSec localHour
        else hist
      events := [WorkerEvent.priceUpdate results, WorkerEvent.pollTick tick]
      continues := !genStopped }
  | Except.error e =>
    { cache := cache
      ticks := upsert ticks pid tick
      hist := hist
      events := [WorkerEvent.priceError (symbols.map (fun s => (cacheKey pid s, e))), WorkerEvent.pollTick tick]
      continues := !genStopped }

/- ===== Concrete example values (used by witnesses and counterexamples) ===== -/

def symA : String := "AAA"

def symB : String := "BBB"

def errBoom : String := "boom"

def usdStr : String := "USD"

def provP : String := "prov"

def winA : String := "main"

def assetTypeStr : String := "asset"

def assetA : AssetData :=
  { symbol := symA, price := 1, currency := usdStr, change_24h := none
    change_percent_24h := none, high_24h := none, low_24h := none
    volume := none, market_cap := none, last_updated := 0
    provider_id := provP, extra := none }

def assetB : AssetData := { assetA with symbol := symB }

def fetchEx (s : String) : Except String AssetData :=
  if s == symB then Except.ok assetB else Except.error errBoom

/- ===== C10: shared HTTP client configuration ===== -/

/-- C10 counterexample: the claim says the process-wide shared client has
an enabled cookie store, but shared_client() never calls cookie_store,
and reqwest's builder default leaves it disabled. -/
theorem C10_counterexample : shared_client.cookie_store = false := rfl

/-- C10 (amended): the process-wide shared client has a 15-second timeout,
the product user-agent, and a per-host idle ceiling of 10, but its cookie
store is disabled; a cookie store is enabled only on the Yahoo adapter's
own dedicated client. -/
theorem C10_shared_client_config :
    shared_client.timeout_secs = some 15 ∧
    shared_client.user_agent = some productUA ∧
    shared_client.pool_max_idle_per_host = some 10 ∧
    shared_client.cookie_store = false ∧
    yahoo_client.cookie_store = true :=
  ⟨rfl, rfl, rfl, rfl, rfl⟩

/- ===== C5: default fetch_prices error behavior ===== -/

/-- C5 counterexample: with a fetch function that fails on the first
symbol and succeeds on the second, the default fetch_prices returns
Ok([second result]) — the per-symbol error does not abort the batch, so
the claim's "the batch call returns an error rather than a partial list"
is false. -/
theorem C5_counterexample :
    fetchEx symA = Except.error errBoom ∧
    fetch_prices_default fetchEx [symA, symB] = Except.ok [assetB] ∧
    ∀ e, fetch_prices_default fetchEx [symA, symB] ≠ Except.error e := by
  have h2 : fetch_prices_default fetchEx [symA, symB] = Except.ok [assetB] := by rfl
  refine ⟨by rfl, h2, ?_⟩
  intro e h
  rw [h2] at h
  exact Except.noConfusion h

/-- C5 (amended): the default fetch_prices never aborts: every fetch_price
error is dropped (reported only through logs) and the call always returns
Ok with the successful results in input order, so the result may be
shorter than the input. -/
theorem C5_default_fetch_prices (fetch : String → Except String AssetData) (symbols : List String) :
    fetch_prices_default fetch symbols
      = Except.ok (symbols.filterMap (fun s => (fetch s).toOption)) ∧
    (symbols.filterMap (fun s => (fetch s).toOption)).length ≤ symbols.length := by
  constructor
  · have key : ∀ (l : List String) (acc : List AssetData),
        l.foldl
          (fun results s =>
            match fetch s with
            | Except.ok d => results ++ [d]
            | Except.error _ => results)
          acc
        = acc ++ l.filterMap (fun s => (fetch s).toOption) := by
      intro l
      induction l with
      | nil => intro acc; simp
      | cons x xs ih =>
        intro acc
        cases hx : fetch x with
        | ok d => simp [List.filterMap_cons, hx, ih, Except.toOption]
        | error er => simp [List.filterMap_cons, hx, ih, Except.toOption]
    unfold fetch_prices_default
    rw [key]
    simp
  · exact List.length_filterMap_le _ _

/- ===== C7: reconnect bound and backoff sequence ===== -/

lemma reconnectAux_succ_pos (connect : Nat → Bool) (n a : Nat) (h : connect a = true) :
    reconnectAux connect (n + 1) a
      = ([INITIAL_RECONNECT_DELAY_MS * 2 ^ (min a 6)], true) := by
  simp [reconnectAux, h]

lemma reconnectAux_succ_neg (connect : Nat → Bool) (n a : Nat) (h : connect a = false) :
    reconnectAux connect (n + 1) a
      = (INITIAL_RECONNECT_DELAY_MS * 2 ^ (min a 6) :: (reconnectAux connect n (a + 1)).1,
         (reconnectAux connect n (a + 1)).2) := by
  simp [reconnectAux, h]

lemma map_range_shift (k a : Nat) :
    (List.range k).map (fun i => INITIAL_RECONNECT_DELAY_MS * 2 ^ (min (a + 1 + i) 6))
      = (List.range k).map ((fun i => INITIAL_RECONNECT_DELAY_MS * 2 ^ (min (a + i) 6)) ∘ Nat.succ) := by
  apply List.map_congr_left
  intro i _
  simp only [Function.comp_apply]
  congr 3
  omega

lemma reconnectAux_shape (connect : Nat → Bool) :
    ∀ fuel attempt, ∃ k, k ≤ fuel ∧
      (reconnectAux connect fuel attempt).1
        = (List.range k).map (fun i => INITIAL_RECONNECT_DELAY_MS * 2 ^ (min (attempt + i) 6)) := by
  intro fuel
  induction fuel with
  | zero =>
    intro a
    exact ⟨0, Nat.le_refl 0, by simp [reconnectAux]⟩
  | succ n ih =>
    intro a
    cases hc : connect a with
    | true =>
      refine ⟨1, by omega, ?_⟩
      rw [reconnectAux_succ_pos connect n a hc]
      rw [show List.range 1 = [0] from rfl]
      simp
    | false =>
      obtain ⟨k, hk, hshape⟩ := ih (a + 1)
      refine ⟨k + 1, by omega, ?_⟩
      rw [reconnectAux_succ_neg connect n a hc, hshape, List.range_succ_eq_map]
      simp only [List.map_cons, List.map_map, Nat.add_zero]
      rw [map_range_shift k a]

lemma reconnectAux_allfail (connect : Nat → Bool) (hf : ∀ n, connect n = false) :
    ∀ fuel attempt,
      reconnectAux connect fuel attempt
        = ((List.range fuel).map (fun i => INITIAL_RECONNECT_DELAY_MS * 2 ^ (min (attempt + i) 6)), false) := by
  intro fuel
  induction fuel with
  | zero => intro a; simp [reconnectAux]
  | succ n ih =>
    intro a
    rw [reconnectAux_succ_neg connect n a (hf a), ih (a + 1), List.range_succ_eq_map]
    simp only [List.map_cons, List.map_map, Nat.add_zero]
    rw [map_range_shift n a]

/-- C7: the streaming worker makes at most 10 reconnect attempts, the
backoff before the n-th attempt (0-indexed) is 1000 * 2 ^ min(n, 6) ms,
and when every attempt fails the loop terminates after the 10th failure
having slept the full backoff sequence. -/
theorem C7_reconnect_policy (connect : Nat → Bool) :
    (reconnectLoop connect).1.length ≤ 10 ∧
    (∀ i (h : i < (reconnectLoop connect).1.length),
      (reconnectLoop connect).1.get ⟨i, h⟩ = 1000 * 2 ^ (min i 6)) ∧
    ((∀ n, connect n = false) →
      reconnectLoop connect = ((List.range 10).map (fun i => 1000 * 2 ^ (min i 6)), false)) := by
  obtain ⟨k, hk, hshape⟩ := reconnectAux_shape connect MAX_RECONNECT_ATTEMPTS 0
  have hshape' : (reconnectLoop connect).1
      = (List.range k).map (fun i => 1000 * 2 ^ (min i 6)) := by
    rw [reconnectLoop, hshape]
    simp [INITIAL_RECONNECT_DELAY_MS]
  refine ⟨?_, ?_, ?_⟩
  · rw [hshape']
    simpa using hk
  · intro i h
    rw [List.get_of_eq hshape']
    simp
  · intro hf
    have := reconnectAux_allfail connect hf MAX_RECONNECT_ATTEMPTS 0
    rw [reconnectLoop, this]
    simp [INITIAL_RECONNECT_DELAY_MS, MAX_RECONNECT_ATTEMPTS]

/-- C7 witness: with every connect attempt failing, the loop sleeps the
ten capped-doubling delays and gives up. -/
theorem C7_reconnect_policy_witness :
    reconnectLoop (fun _ => false)
      = ([1000, 2000, 4000, 8000, 16000, 32000, 64000, 64000, 64000, 64000], false) := by
  have h := (C7_reconnect_policy (fun _ => false)).2.2 (fun n => rfl)
  rw [h]
  rfl

/- ===== C8: worker error path and poll-tick after every batch ===== -/

/-- C8: on a failed batch fetch the worker emits a price-error event whose
payload maps provider:symbol to the error text for every requested
symbol, leaves the cache and history untouched, still inserts and
publishes a poll-tick, and keeps looping (only the generation-stop signal
breaks it); and for every batch outcome the last event emitted is a
poll-tick. -/
theorem C8_error_path (pid : String) (symbols : List String) (intervalMs : Nat)
    (recordSymbols : List String) (subs : List SubRow) (provs : List ProvRow)
    (e : String) (cache : List (String × AssetData)) (ticks : List (String × PollTick))
    (hist : List HistRow) (nowMs nowSec : Int) (localHour : Nat) (genStopped : Bool) :
    (workerIteration pid symbols intervalMs recordSymbols subs provs (Except.error e) cache ticks hist nowMs nowSec localHour genStopped).events
      = [WorkerEvent.priceError (symbols.map (fun s => (cacheKey pid s, e))),
         WorkerEvent.pollTick ⟨pid, nowMs, intervalMs⟩] ∧
    (∀ s, s ∈ symbols → (cacheKey pid s, e) ∈ symbols.map (fun s2 => (cacheKey pid s2, e))) ∧
    (pid, (⟨pid, nowMs, intervalMs⟩ : PollTick))
      ∈ (workerIteration pid symbols intervalMs recordSymbols subs provs (Except.error e) cache ticks hist nowMs nowSec localHour genStopped).ticks ∧
    (workerIteration pid symbols intervalMs recordSymbols subs provs (Except.error e) cache ticks hist nowMs nowSec localHour genStopped).cache = cache ∧
    (workerIteration pid symbols intervalMs recordSymbols subs provs (Except.error e) cache ticks hist nowMs nowSec localHour genStopped).hist = hist ∧
    (workerIteration pid symbols intervalMs recordSymbols subs provs (Except.error e) cache ticks hist nowMs nowSec localHour genStopped).continues = !genStopped ∧
    (∀ fr : Except String (List AssetData),
      (workerIteration pid symbols intervalMs recordSymbols subs provs fr cache ticks hist nowMs nowSec localHour genStopped).events.getLast?
        = some (WorkerEvent.pollTick ⟨pid, nowMs, intervalMs⟩)) := by
  refine ⟨rfl, ?_, ?_, rfl, rfl, rfl, ?_⟩
  · intro s hs
    exact List.mem_map.mpr ⟨s, hs, rfl⟩
  · simp [workerIteration, upsert]
  · intro fr
    cases fr <;> rfl

/-- C8 witness: instantiation at a one-symbol batch with a failing fetch. -/
theorem C8_error_path_witness :
    (cacheKey provP symA, errBoom) ∈ [symA].map (fun s2 => (cacheKey provP s2, errBoom)) :=
  (C8_error_path provP [symA] 5000 [] [] [] errBoom [] [] [] 0 0 0 false).2.1 symA (by simp)

/- ===== C4: visibility coupling ===== -/

/-- C4: when unattended is false, at least one window scope is registered
and the union of all scopes is empty, the loop head clears both the cache
and the tick map and blocks without spawning workers; when unattended is
true the iteration proceeds to load subscriptions with no visibility
filter at all. -/
theorem C4_visibility_coupling (st : ManagerState) :
    (st.unattended = false → st.visible_ids ≠ [] → unionIds st.visible_ids = [] →
      iterationHead st = ({ st with cache := [], ticks := [] }, IterStep.sleepCleared)) ∧
    (st.unattended = true → iterationHead st = (st, IterStep.loadWith none)) ∧
    (∀ subs : List SubRow, read_subscriptions subs none = subs.map subRecordOf) := by
  refine ⟨?_, ?_, fun subs => rfl⟩
  · intro h1 h2 h3
    simp [iterationHead, visSnapshot, h1, h2, h3, List.isEmpty_iff]
  · intro h1
    simp [iterationHead, visSnapshot, h1]

def stEx : ManagerState :=
  { cache := [(cacheKey provP symA, assetA)]
    ticks := [(provP, ⟨provP, 0, 5000⟩)]
    visible_ids := [(winA, [])]
    unattended := false }

/-- C4 witness: a state with one registered scope whose id set is empty
is cleared and put to sleep. -/
theorem C4_visibility_coupling_witness :
    iterationHead stEx = ({ stEx with cache := [], ticks := [] }, IterStep.sleepCleared) :=
  (C4_visibility_coupling stEx).1 rfl (by simp [stEx]) rfl

/- ===== C3: cache and tick pruning at generation start ===== -/

lemma mem_groupCacheKeys (groups : List (String × PollingGroup)) (k : String) :
    k ∈ groupCacheKeys groups
      ↔ ∃ pid g s, (pid, g) ∈ groups ∧ s ∈ g.symbols ∧ k = cacheKey pid s := by
  induction groups with
  | nil => simp [groupCacheKeys]
  | cons pg rest ih =>
    obtain ⟨p, gr⟩ := pg
    have hstep : groupCacheKeys ((p, gr) :: rest)
        = gr.symbols.map (fun s => cacheKey p s) ++ groupCacheKeys rest := rfl
    rw [hstep]
    simp only [List.mem_append, List.mem_map, ih]
    constructor
    · rintro (⟨s, hs, rfl⟩ | ⟨pid, g, s, hmem, hs, rfl⟩)
      · exact ⟨p, gr, s, List.mem_cons_self _ _, hs, rfl⟩
      · exact ⟨pid, g, s, List.mem_cons_of_mem _ hmem, hs, rfl⟩
    · rintro ⟨pid, g, s, hmem, hs, rfl⟩
      rcases List.mem_cons.mp hmem with h | h
      · left
        obtain ⟨rfl, rfl⟩ := Prod.mk.injEq .. ▸ h
        exact ⟨s, hs, rfl⟩
      · right
        exact ⟨pid, g, s, h, hs, rfl⟩

/-- C3: after the prune step at the start of a scheduling generation,
every key remaining in the cache is provider_id:symbol for some symbol of
that provider's group, every key remaining in the tick map is a provider
id with a current group, and every key not of that form is removed. -/
theorem C3_prune_scope (groups : List (String × PollingGroup))
    (cache : List (String × AssetData)) (ticks : List (String × PollTick)) :
    (∀ k v, (k, v) ∈ pruneCache cache groups →
      ∃ pid g s, (pid, g) ∈ groups ∧ s ∈ g.symbols ∧ k = cacheKey pid s) ∧
    (∀ k t, (k, t) ∈ pruneTicks ticks groups → ∃ g, (k, g) ∈ groups) ∧
    (∀ k v, (k, v) ∈ cache →
      (¬ ∃ pid g s, (pid, g) ∈ groups ∧ s ∈ g.symbols ∧ k = cacheKey pid s) →
      (k, v) ∉ pruneCache cache groups) ∧
    (∀ k t, (k, t) ∈ ticks → (¬ ∃ g, (k, g) ∈ groups) →
      (k, t) ∉ pruneTicks ticks groups) := by
  refine ⟨?_, ?_, ?_, ?_⟩
  · intro k v h
    have hc := (List.mem_filter.mp h).2
    simp only [List.elem_iff] at hc
    exact (mem_groupCacheKeys groups k).mp hc
  · intro k t h
    have hc := (List.mem_filter.mp h).2
    simp only [List.elem_iff, List.mem_map] at hc
    obtain ⟨p, hp, hpk⟩ := hc
    exact ⟨p.2, by rwa [show (k, p.2) = p from by rw [← hpk]]⟩
  · intro k v _ hn h
    have hc := (List.mem_filter.mp h).2
    simp only [List.elem_iff] at hc
    exact hn ((mem_groupCacheKeys groups k).mp hc)
  · intro k t _ hn h
    have hc := (List.mem_filter.mp h).2
    simp only [List.elem_iff, List.mem_map] at hc
    obtain ⟨p, hp, hpk⟩ := hc
    exact hn ⟨p.2, by rwa [show (k, p.2) = p from by rw [← hpk]]⟩

def groupEx : PollingGroup := { symbols := [symA], record_symbols := [], interval_ms := 5000 }

def groupsEx : List (String × PollingGroup) := [(provP, groupEx)]

def cacheEx : List (String × AssetData) :=
  [(cacheKey provP symA, assetA), (cacheKey provP symB, assetB)]

/-- C3 witness: the surviving key of a concrete prune is a group key. -/
theorem C3_prune_scope_witness :
    ∃ pid g s, (pid, g) ∈ groupsEx ∧ s ∈ g.symbols ∧ cacheKey provP symA = cacheKey pid s :=
  (C3_prune_scope groupsEx cacheEx []).1 (cacheKey provP symA) assetA (by decide)

/- ===== C6: symbol normalization round-trip ===== -/

lemma splitOnce_append (base quote : List Char) (c : Char) (hb : c ∉ base) :
    splitOnce (base ++ c :: quote) c = some (base, quote) := by
  induction base with
  | nil => simp [splitOnce]
  | cons x xs ih =>
    have hx : ¬ (x = c) := fun h => hb (by rw [← h]; exact List.mem_cons_self x xs)
    simp [splitOnce, hx, ih (fun hmem => hb (List.mem_cons_of_mem _ hmem))]

lemma splitOnce_eq_none (l : List Char) (c : Char) (hc : c ∉ l) : splitOnce l c = none := by
  induction l with
  | nil => rfl
  | cons x xs ih =>
    have hx : ¬ (x = c) := fun h => hc (by rw [← h]; exact List.mem_cons_self x xs)
    simp [splitOnce, hx, ih (fun hmem => hc (List.mem_cons_of_mem _ hmem))]

lemma quote_suffix_facts (q : List Char) (hq : q ∈ quoteSuffixes) :
    q.map Char.toUpper = q ∧ '-' ∉ q ∧ '/' ∉ q := by
  simp only [quoteSuffixes, List.mem_cons, List.not_mem_nil, or_false] at hq
  rcases hq with rfl | rfl | rfl | rfl | rfl | rfl | rfl | rfl | rfl <;> decide

def cxXB : List Char := "XB".toList

def cxX : List Char := "X".toList

def cxBtcLower : List Char := "btc".toList

/-- C6 counterexample: the round trip fails on the concatenated form when
an earlier entry of the ordered suffix list matches first (XB + USD
parses as (X, BUSD)), and on every form for a base that is not already
uppercase (btc-USD parses as (BTC, USD), not (btc, USD)). -/
theorem C6_counterexample :
    sUSD ∈ quoteSuffixes ∧
    parse_crypto_symbol (cxXB ++ sUSD) = (cxX, sBUSD) ∧
    parse_crypto_symbol (cxXB ++ sUSD) ≠ (cxXB, sUSD) ∧
    parse_crypto_symbol (cxBtcLower ++ '-' :: sUSD) ≠ (cxBtcLower, sUSD) := by
  decide

/-- C6 (amended): parse_crypto_symbol uppercases its input, then splits at
the first '-', then at the first '/', then suffix-matches against the
ordered list [USDT, USDC, BUSD, USD, EUR, GBP, BTC, ETH, BNB] requiring a
nonempty base, else falls back to (input, USD).  For every base that is
uppercase-invariant and free of '-' and '/', and every quote in the
suffix set, the hyphenated and slashed forms parse back to (base, quote);
the concatenated form does too provided the ordered suffix scan of
base ++ quote selects quote itself. -/
theorem C6_parse_roundtrip (base quote : List Char)
    (hq : quote ∈ quoteSuffixes)
    (hu : base.map Char.toUpper = base)
    (hd : '-' ∉ base) (hs : '/' ∉ base) :
    parse_crypto_symbol (base ++ '-' :: quote) = (base, quote) ∧
    parse_crypto_symbol (base ++ '/' :: quote) = (base, quote) ∧
    (quoteSuffixes.find?
        (fun suf => decide (suf.length < (base ++ quote).length) && suf.isSuffixOf (base ++ quote))
      = some quote →
      parse_crypto_symbol (base ++ quote) = (base, quote)) := by
  obtain ⟨hqu, hqd, hqs⟩ := quote_suffix_facts quote hq
  have hdash : Char.toUpper '-' = '-' := by decide
  have hslash : Char.toUpper '/' = '/' := by decide
  refine ⟨?_, ?_, ?_⟩
  · have hmap : (base ++ '-' :: quote).map Char.toUpper = base ++ '-' :: quote := by
      simp [hu, hqu, hdash]
    rw [parse_crypto_symbol, hmap]
    simp [parseUpper, splitOnce_append base quote '-' hd]
  · have hmap : (base ++ '/' :: quote).map Char.toUpper = base ++ '/' :: quote := by
      simp [hu, hqu, hslash]
    have hnod : '-' ∉ base ++ '/' :: quote := by
      simp only [List.mem_append, List.mem_cons]
      push_neg
      exact ⟨hd, by decide, hqd⟩
    rw [parse_crypto_symbol, hmap]
    simp [parseUpper, splitOnce_eq_none _ _ hnod, splitOnce_append base quote '/' hs]
  · intro hfind
    have hmap : (base ++ quote).map Char.toUpper = base ++ quote := by
      simp [hu, hqu]
    have hnod : '-' ∉ base ++ quote := by
      simp only [List.mem_append]
      push_neg
      exact ⟨hd, hqd⟩
    have hnos : '/' ∉ base ++ quote := by
      simp only [List.mem_append]
      push_neg
      exact ⟨hs, hqs⟩
    rw [parse_crypto_symbol, hmap]
    have hlen : (base ++ quote).length - quote.length = base.length := by simp
    simp only [parseUpper, splitOnce_eq_none _ _ hnod, splitOnce_eq_none _ _ hnos, hfind, hlen]
    rw [List.take_left]

/-- C6 witness: BTC with quote USDT round-trips through all three forms. -/
theorem C6_parse_roundtrip_witness :
    parse_crypto_symbol (sBTC ++ '-' :: sUSDT) = (sBTC, sUSDT) ∧
    parse_crypto_symbol (sBTC ++ '/' :: sUSDT) = (sBTC, sUSDT) ∧
    parse_crypto_symbol (sBTC ++ sUSDT) = (sBTC, sUSDT) := by
  have h := C6_parse_roundtrip sBTC sUSDT (by decide) (by decide) (by decide) (by decide)
  exact ⟨h.1, h.2.1, h.2.2 (by decide)⟩

/- ===== C1 / C2 / C9: history recorder ===== -/

/-- The recording-window membership predicate exactly as the spec words
it: (from, to) with from <= to means hour in [from, to); with from > to
it means hour >= from or hour < to (overnight). -/
def specHourInWindow (fromH toH hour : Nat) : Bool :=
  if fromH ≤ toH then decide (fromH ≤ hour) && decide (hour < toH)
  else decide (hour ≥ fromH) || decide (hour < toH)

lemma windowPass_eq_spec (f t h : Nat) (hh : h < 24) :
    windowPass f t h = specHourInWindow f t h := by
  unfold windowPass specHourInWindow
  by_cases h0 : f = 0 ∧ t = 24
  · obtain ⟨rfl, rfl⟩ := h0
    simp [hh]
  · have hcond : (f == 0 && t == 24) = false := by
      by_cases hf : f = 0
      · have ht : ¬ t = 24 := fun h => h0 ⟨hf, h⟩
        simp [hf, ht]
      · simp [hf]
    simp [hcond]

lemma lookupSubWindow_some {subs : List SubRow} {sym pid : String} {subId : Int}
    {subFrom subTo : Option Int}
    (h : lookupSubWindow subs sym pid = some (subId, subFrom, subTo)) :
    ∃ r ∈ subs, r.symbol = sym ∧ r.selected_provider_id = pid ∧ r.id = subId := by
  unfold lookupSubWindow at h
  obtain ⟨r, hfind, hmap⟩ := Option.map_eq_some'.mp h
  have hmem := List.mem_of_find?_eq_some hfind
  have hpred := List.find?_some hfind
  simp only [Bool.and_eq_true, beq_iff_eq] at hpred
  exact ⟨r, hmem, hpred.1, hpred.2, congrArg Prod.fst hmap⟩

lemma writeOne_some_spec {subs : List SubRow} {provs : List ProvRow} {hist : List HistRow}
    {pid : String} {d : AssetData} {rs : List String} {now : Int} {hour : Nat} {row : HistRow}
    (h : writeOne subs provs hist pid d rs now hour = some row) :
    row.recorded_at = now ∧
    hist.any (fun r => r.subscription_id == row.subscription_id && decide (r.recorded_at > now - 5)) = false ∧
    ∃ r ∈ subs, r.symbol = d.symbol ∧ r.selected_provider_id = pid ∧ row.subscription_id = r.id := by
  unfold writeOne at h
  by_cases h1 : rs.contains d.symbol
  case neg =>
    have hc : rs.contains d.symbol = false := by
      cases hcc : rs.contains d.symbol
      · rfl
      · exact absurd hcc h1
    rw [hc] at h
    simp at h
  case pos =>
  simp only [h1, Bool.not_true, Bool.false_eq_true, if_false] at h
  cases hls : lookupSubWindow subs d.symbol pid with
  | none => rw [hls] at h; exact Option.noConfusion h
  | some trip =>
    obtain ⟨subId, subFrom, subTo⟩ := trip
    rw [hls] at h
    by_cases h2 : windowPass (effectiveHours subFrom subTo provs pid).1
        (effectiveHours subFrom subTo provs pid).2 hour
    case neg =>
      simp only [Bool.not_eq_true] at h2
      simp [h2] at h
    case pos =>
    simp only [h2, Bool.not_true, Bool.false_eq_true, if_false] at h
    by_cases h3 : hist.any (fun r => r.subscription_id == subId && decide (r.recorded_at > now - 5))
    case pos => simp [h3] at h
    case neg =>
    simp only [Bool.not_eq_true] at h3
    simp only [h3, Bool.false_eq_true, if_false, Option.some.injEq] at h
    obtain ⟨r, hmem, hsym, hpid, hid⟩ := lookupSubWindow_some hls
    subst h
    exact ⟨rfl, h3, r, hmem, hsym, hpid, hid.symm⟩

lemma write_cons_none {subs : List SubRow} {provs : List ProvRow} {hist : List HistRow}
    {pid : String} {d : AssetData} {rest : List AssetData} {rs : List String}
    {now : Int} {hour : Nat}
    (h : writeOne subs provs hist pid d rs now hour = none) :
    write_price_history subs provs hist pid (d :: rest) rs now hour
      = write_price_history subs provs hist pid rest rs now hour := by
  unfold write_price_history
  simp only [List.foldl_cons, h]

lemma write_cons_some {subs : List SubRow} {provs : List ProvRow} {hist : List HistRow}
    {pid : String} {d : AssetData} {rest : List AssetData} {rs : List String}
    {now : Int} {hour : Nat} {row : HistRow}
    (h : writeOne subs provs hist pid d rs now hour = some row) :
    write_price_history subs provs hist pid (d :: rest) rs now hour
      = write_price_history subs provs (hist ++ [row]) pid rest rs now hour := by
  unfold write_price_history
  simp only [List.foldl_cons, h]

lemma rowsFor_append_other {sid : Int} {hist : List HistRow} {row : HistRow}
    (h : ¬ row.subscription_id = sid) :
    rowsFor sid (hist ++ [row]) = rowsFor sid hist := by
  simp [rowsFor, List.filter_append, h]

lemma write_hist_skip (subs : List SubRow) (provs : List ProvRow) (pid : String)
    (rs : List String) (now : Int) (hour : Nat) (sid : Int) :
    ∀ (data : List AssetData) (hist : List HistRow),
      (∃ r ∈ hist, r.subscription_id = sid ∧ r.recorded_at > now - 5) →
      rowsFor sid (write_price_history subs provs hist pid data rs now hour) = rowsFor sid hist := by
  intro data
  induction data with
  | nil => intro hist _; rfl
  | cons d rest ih =>
    intro hist hex
    obtain ⟨r, hr, hrs, hrt⟩ := hex
    cases hw : writeOne subs provs hist pid d rs now hour with
    | none =>
      rw [write_cons_none hw]
      exact ih hist ⟨r, hr, hrs, hrt⟩
    | some row =>
      rw [write_cons_some hw]
      by_cases hrow : row.subscription_id = sid
      · exfalso
        obtain ⟨-, hany, -⟩ := writeOne_some_spec hw
        rw [hrow] at hany
        have hany2 : hist.any (fun r => r.subscription_id == sid && decide (r.recorded_at > now - 5)) = true := by
          simp only [List.any_eq_true]
          exact ⟨r, hr, by simp [hrs, hrt]⟩
        rw [hany2] at hany
        exact Bool.noConfusion hany
      · rw [ih (hist ++ [row]) ⟨r, List.mem_append_left _ hr, hrs, hrt⟩]
        exact rowsFor_append_other hrow

lemma write_hist_once (subs : List SubRow) (provs : List ProvRow) (pid : String)
    (rs : List String) (now : Int) (hour : Nat) (sid : Int) :
    ∀ (data : List AssetData) (hist : List HistRow),
      (∀ r ∈ hist, r.subscription_id = sid → r.recorded_at = now) →
      (rowsFor sid hist).length ≤ 1 →
      (∀ r ∈ write_price_history subs provs hist pid data rs now hour,
          r.subscription_id = sid → r.recorded_at = now) ∧
      (rowsFor sid (write_price_history subs provs hist pid data rs now hour)).length ≤ 1 := by
  intro data
  induction data with
  | nil => intro hist h1 h2; exact ⟨h1, h2⟩
  | cons d rest ih =>
    intro hist h1 h2
    cases hw : writeOne subs provs hist pid d rs now hour with
    | none =>
      rw [write_cons_none hw]
      exact ih hist h1 h2
    | some row =>
      rw [write_cons_some hw]
      apply ih (hist ++ [row])
      · intro r hr hrsid
        rcases List.mem_append.mp hr with hmem | hmem
        · exact h1 r hmem hrsid
        · rw [List.mem_singleton.mp hmem]
          exact (writeOne_some_spec hw).1
      · by_cases hrow : row.subscription_id = sid
        · obtain ⟨-, hany, -⟩ := writeOne_some_spec hw
          rw [hrow] at hany
          have hempty : rowsFor sid hist = [] := by
            by_contra hne
            obtain ⟨r, hr⟩ := List.exists_mem_of_ne_nil _ hne
            have hrmem : r ∈ hist := (List.mem_filter.mp hr).1
            have hrsid : r.subscription_id = sid := by
              simpa using (List.mem_filter.mp hr).2
            have hrt : r.recorded_at = now := h1 r hrmem hrsid
            have hany2 : hist.any (fun r => r.subscription_id == sid && decide (r.recorded_at > now - 5)) = true := by
              simp only [List.any_eq_true]
              refine ⟨r, hrmem, ?_⟩
              simp only [hrsid, hrt, beq_self_eq_true, Bool.true_and, decide_eq_true_eq]
              omega
            rw [hany2] at hany
            exact Bool.noConfusion hany
          have hsplit : rowsFor sid (hist ++ [row]) = rowsFor sid hist ++ rowsFor sid [row] := by
            simp [rowsFor, List.filter_append]
          rw [hsplit, hempty]
          simp [rowsFor, hrow]
        · rw [rowsFor_append_other hrow]
          exact h2

lemma write_hist_avoid (subs : List SubRow) (provs : List ProvRow) (pid : String)
    (rs : List String) (now : Int) (hour : Nat) (sid : Int) :
    ∀ (data : List AssetData) (hist : List HistRow),
      (∀ d ∈ data, ∀ r ∈ subs, r.symbol = d.symbol → r.id ≠ sid) →
      rowsFor sid (write_price_history subs provs hist pid data rs now hour) = rowsFor sid hist := by
  intro data
  induction data with
  | nil => intro hist _; rfl
  | cons d rest ih =>
    intro hist hnever
    cases hw : writeOne subs provs hist pid d rs now hour with
    | none =>
      rw [write_cons_none hw]
      exact ih hist (fun d2 hd2 => hnever d2 (List.mem_cons_of_mem _ hd2))
    | some row =>
      rw [write_cons_some hw]
      obtain ⟨-, -, r, hrmem, hrsym, -, hrid⟩ := writeOne_some_spec hw
      have hne : ¬ row.subscription_id = sid := by
        rw [hrid]
        exact hnever d (List.mem_cons_self d rest) r hrmem hrsym
      rw [ih (hist ++ [row]) (fun d2 hd2 => hnever d2 (List.mem_cons_of_mem _ hd2))]
      exact rowsFor_append_other hne

/-- C1: the effective recording window is chosen with precedence
subscription window, then provider window, then full day (0, 24); and a
point passes writeOne only when the local hour is in that window under
the spec semantics (from <= to: [from, to); from > to: overnight union) —
otherwise it is skipped. -/
theorem C1_window_gating (subs : List SubRow) (provs : List ProvRow) (hist : List HistRow)
    (pid : String) (d : AssetData) (rs : List String) (now : Int)
    (localHour : Nat) (hh : localHour < 24)
    (subId : Int) (subFrom subTo : Option Int)
    (hsub : lookupSubWindow subs d.symbol pid = some (subId, subFrom, subTo)) :
    (∀ f t, subFrom = some f → subTo = some t →
      effectiveHours subFrom subTo provs pid = (u32cast f, u32cast t)) ∧
    ((subFrom = none ∨ subTo = none) → ∀ pf pt,
      lookupProvWindow provs pid = some (some pf, some pt) →
      effectiveHours subFrom subTo provs pid = (u32cast pf, u32cast pt)) ∧
    ((subFrom = none ∨ subTo = none) →
      (∀ pf pt, ¬ lookupProvWindow provs pid = some (some pf, some pt)) →
      effectiveHours subFrom subTo provs pid = (0, 24)) ∧
    (¬ specHourInWindow (effectiveHours subFrom subTo provs pid).1
        (effectiveHours subFrom subTo provs pid).2 localHour = true →
      writeOne subs provs hist pid d rs now localHour = none) ∧
    (¬ writeOne subs provs hist pid d rs now localHour = none →
      specHourInWindow (effectiveHours subFrom subTo provs pid).1
        (effectiveHours subFrom subTo provs pid).2 localHour = true) := by
  have hgate : ¬ specHourInWindow (effectiveHours subFrom subTo provs pid).1
      (effectiveHours subFrom subTo provs pid).2 localHour = true →
      writeOne subs provs hist pid d rs now localHour = none := by
    intro hnw
    rw [Bool.not_eq_true] at hnw
    have hwp : windowPass (effectiveHours subFrom subTo provs pid).1
        (effectiveHours subFrom subTo provs pid).2 localHour = false :=
      (windowPass_eq_spec _ _ _ hh).trans hnw
    unfold writeOne
    by_cases h1 : rs.contains d.symbol
    · simp [h1, hsub, hwp]
    · have hc : rs.contains d.symbol = false := by
        cases hcc : rs.contains d.symbol
        · rfl
        · exact absurd hcc h1
      rw [hc]
      simp
  refine ⟨?_, ?_, ?_, hgate, ?_⟩
  · rintro f t rfl rfl
    rfl
  · intro hnone pf pt hpv
    rcases hnone with rfl | rfl
    · cases subTo <;> simp [effectiveHours, hpv]
    · cases subFrom <;> simp [effectiveHours, hpv]
  · intro hnone hnpv
    rcases hlv : lookupProvWindow provs pid with - | ⟨- | pf, - | pt⟩
    · rcases hnone with rfl | rfl
      · cases subTo <;> simp [effectiveHours, hlv]
      · cases subFrom <;> simp [effectiveHours, hlv]
    · rcases hnone with rfl | rfl
      · cases subTo <;> simp [effectiveHours, hlv]
      · cases subFrom <;> simp [effectiveHours, hlv]
    · rcases hnone with rfl | rfl
      · cases subTo <;> simp [effectiveHours, hlv]
      · cases subFrom <;> simp [effectiveHours, hlv]
    · rcases hnone with rfl | rfl
      · cases subTo <;> simp [effectiveHours, hlv]
      · cases subFrom <;> simp [effectiveHours, hlv]
    · exact absurd hlv (hnpv pf pt)
  · intro hne
    by_contra hnw
    exact hne (hgate hnw)

/-- C2: if a price_history row for the same subscription exists with
recorded_at strictly newer than now - 5, write_price_history inserts no
row for that subscription; and two write passes over the same
subscription less than 5 seconds apart leave exactly one stored row when
the first pass stored anything. -/
theorem C2_five_second_dedup :
    (∀ (subs : List SubRow) (provs : List ProvRow) (hist : List HistRow)
        (pid : String) (data : List AssetData) (rs : List String)
        (now : Int) (hour : Nat) (sid : Int),
      (∃ r ∈ hist, r.subscription_id = sid ∧ r.recorded_at > now - 5) →
      rowsFor sid (write_price_history subs provs hist pid data rs now hour) = rowsFor sid hist) ∧
    (∀ (subs : List SubRow) (provs : List ProvRow) (hist : List HistRow)
        (pid1 pid2 : String) (data1 data2 : List AssetData) (rs1 rs2 : List String)
        (t1 t2 : Int) (h1 h2 : Nat) (sid : Int),
      rowsFor sid hist = [] →
      t2 - t1 < 5 →
      rowsFor sid (write_price_history subs provs hist pid1 data1 rs1 t1 h1) ≠ [] →
      (rowsFor sid (write_price_history subs provs
        (write_price_history subs provs hist pid1 data1 rs1 t1 h1)
        pid2 data2 rs2 t2 h2)).length = 1) := by
  constructor
  · intro subs provs hist pid data rs now hour sid hex
    exact write_hist_skip subs provs pid rs now hour sid data hist hex
  · intro subs provs hist pid1 pid2 data1 data2 rs1 rs2 t1 t2 h1 h2 sid hempty hgap hne
    have hinit1 : ∀ r ∈ hist, r.subscription_id = sid → r.recorded_at = t1 := by
      intro r hr hrs
      have : r ∈ rowsFor sid hist := List.mem_filter.mpr ⟨hr, by simp [hrs]⟩
      rw [hempty] at this
      exact absurd this (List.not_mem_nil r)
    have hinit2 : (rowsFor sid hist).length ≤ 1 := by
      rw [hempty]; simp
    obtain ⟨hnow, hlen⟩ :=
      write_hist_once subs provs pid1 rs1 t1 h1 sid data1 hist hinit1 hinit2
    have hlen1 : (rowsFor sid (write_price_history subs provs hist pid1 data1 rs1 t1 h1)).length = 1 := by
      have hne0 : (rowsFor sid (write_price_history subs provs hist pid1 data1 rs1 t1 h1)).length ≠ 0 :=
        fun h0 => hne (List.length_eq_zero.mp h0)
      omega
    obtain ⟨r, hr⟩ := List.exists_mem_of_ne_nil _ hne
    have hrmem : r ∈ write_price_history subs provs hist pid1 data1 rs1 t1 h1 :=
      (List.mem_filter.mp hr).1
    have hrsid : r.subscription_id = sid := by
      simpa using (List.mem_filter.mp hr).2
    have hrt : r.recorded_at = t1 := hnow r hrmem hrsid
    rw [write_hist_skip subs provs pid2 rs2 t2 h2 sid data2 _
      ⟨r, hrmem, hrsid, by rw [hrt]; omega⟩]
    exact hlen1

/-- C9: a dex subscription whose stored symbol column differs from its
composite pool:from:to string is polled under the composite (its
effective symbol), but the recorder's lookup compares the composite
against stored symbol columns, so no history row for that subscription
id is ever inserted. -/
theorem C9_dex_mismatch_unrecorded (subs : List SubRow) (provs : List ProvRow)
    (hist : List HistRow) (pid : String) (data : List AssetData) (rs : List String)
    (now : Int) (hour : Nat) (S : SubRow)
    (hdex : S.sub_type = dexType)
    (hdiff : ¬ S.symbol = compositeSymbol S)
    (hids : ∀ r ∈ subs, r.id = S.id → r = S)
    (hdata : ∀ d ∈ data, d.symbol = compositeSymbol S) :
    effectiveSymbol S = compositeSymbol S ∧
    rowsFor S.id (write_price_history subs provs hist pid data rs now hour) = rowsFor S.id hist := by
  constructor
  · simp [effectiveSymbol, hdex]
  · apply write_hist_avoid subs provs pid rs now hour S.id data hist
    intro d hd r hr hrsym hrid
    have hrS : r = S := hids r hr hrid
    apply hdiff
    exact ((congrArg SubRow.symbol hrS).symm.trans hrsym).trans (hdata d hd)

/- Concrete values for the C1, C2 and C9 witnesses. -/

def subEx : SubRow :=
  { id := 7, sub_type := assetTypeStr, symbol := symA, selected_provider_id := provP
    pool_address := none, token_from_address := none, token_to_address := none
    record_enabled := true, record_from_hour := none, record_to_hour := none }

def subW : SubRow := { subEx with id := 9, record_from_hour := some 22, record_to_hour := some 6 }

def histRow0 : HistRow :=
  { subscription_id := 7, provider_id := provP, price := 1, change_pct := none
    volume := none, pre_price := none, post_price := none, recorded_at := 98 }

def poolStr : String := "pooladdr"

def tfStr : String := "tokenF"

def ttStr : String := "tokenT"

def symOld : String := "OLDSYM"

def subDex : SubRow :=
  { id := 3, sub_type := dexType, symbol := symOld, selected_provider_id := provP
    pool_address := some poolStr, token_from_address := some tfStr
    token_to_address := some ttStr, record_enabled := true
    record_from_hour := none, record_to_hour := none }

def compositeEx : String := poolStr ++ colonStr ++ tfStr ++ colonStr ++ ttStr

def assetDex : AssetData := { assetA with symbol := compositeEx }

/-- C1 witness: with subscription window (22, 6), local hour 12 is outside
the overnight window and the point is skipped. -/
theorem C1_window_gating_witness :
    writeOne [subW] [] [] provP assetA [symA] 100 12 = none := by
  have h := C1_window_gating [subW] [] [] provP assetA [symA] 100 12 (by decide)
    9 (some 22) (some 6) (by decide)
  exact h.2.2.2.1 (by decide)

/-- C2 witness: a row recorded at 98 blocks a write at now = 100. -/
theorem C2_five_second_dedup_witness :
    rowsFor 7 (write_price_history [subEx] [] [histRow0] provP [assetA] [symA] 100 12)
      = rowsFor 7 [histRow0] :=
  C2_five_second_dedup.1 [subEx] [] [histRow0] provP [assetA] [symA] 100 12 7 (by decide)

/-- C9 witness: a dex subscription stored under OLDSYM but polled under
its composite symbol never gains a history row. -/
theorem C9_dex_mismatch_unrecorded_witness :
    effectiveSymbol subDex = compositeSymbol subDex ∧
    rowsFor subDex.id (write_price_history [subDex] [] [] provP [assetDex] [compositeEx] 100 12)
      = rowsFor subDex.id [] :=
  C9_dex_mismatch_unrecorded [subDex] [] [] provP [assetDex] [compositeEx] 100 12 subDex
    rfl (by decide) (by decide) (by decide)

end StockenBoard
